import Mathlib

/-!
Verification of the pyani ANIb/plot subcommands.

Shallow embedding of the code in `pyani/scripts/subcommands/subcmd_anib.py`
and `pyani/scripts/subcommands/subcmd_plot.py`, together with proofs of the
behavioural properties claimed for them.  Pure computations (fragmenting a
genome into fixed-size chunks, enumerating ordered comparison pairs, naming
of output files) are embedded as Lean functions; the effectful pipeline
`subcmd_anib` is embedded as a function from an environment describing the
outcome of each external effect (database session, run insertion, directory
creation, fragment writing) to the observable result of the call (the
exception it escapes with, the run status it leaves behind, and how many
comparison jobs or external processes it started).
-/

namespace Pyani

/-! ### Fragment IDs

Python assigns fragment IDs with the format string `f"frag{count:05d}"`
(line 283 of `subcmd_anib.py`): the decimal representation of `count`,
left-padded with zeros to a width of at least five characters, after the
literal prefix `frag`. -/

/-- Decimal digit values of a natural number, most significant first
(`Nat.digits` lists them least significant first), with zero rendered as a
single `0` digit, as Python renders a nonnegative integer. -/
def decRepr (n : Nat) : List Nat :=
  if n = 0 then [0] else (Nat.digits 10 n).reverse

/-- Python format `"%05d"`: decimal digits left-padded with zeros to a width
of at least five. -/
def pad5 (n : Nat) : List Nat :=
  List.replicate (5 - (decRepr n).length) 0 ++ decRepr n

/-- Fragment ID string assigned at line 283 of `subcmd_anib.py`:
`f"frag{count:05d}"`. -/
def fragID (n : Nat) : String :=
  "frag" ++ String.mk ((pad5 n).map Nat.digitChar)

/-! ### Fragmenting one sequence record

Lines 279-286 of `subcmd_anib.py` walk a zero-based offset `idx` over one
sequence record in steps of `fragsize`, emitting the slice
`seq[idx : idx + fragsize]` at each step while `idx < len(seq)`.  For
`fragsize >= 1` this is the chunk decomposition below (recursion on the
remaining suffix); for `fragsize = 0` the Python loop never terminates, a
fact analysed separately via the loop-offset model `fragLoopIdx`. -/

/-- One slice of the fragmenting loop body followed by the advance of the
offset, as structural recursion on an iteration budget: each iteration
emits the slice `seq[idx : idx + fragsize]` (here: a `take` after the
previous `drop`s) and drops `fragsize` elements.  A budget of `s.length`
iterations is always enough for `fragsize >= 1` (the offset advances by at
least one per iteration). -/
def fragmentChunksFuel {α : Type} (f : Nat) : Nat → List α → List (List α)
  | 0, _ => []
  | _, [] => []
  | fuel + 1, a :: s => ((a :: s).take f) :: fragmentChunksFuel f fuel ((a :: s).drop f)

/-- Chunks of size `fragsize` of a list: the slices
`seq[idx : idx + fragsize]` for `idx = 0, fragsize, 2*fragsize, ...`,
exactly the fragments the loop at lines 279-286 emits for one record.
Faithful to the Python loop whenever `fragsize >= 1`; for `fragsize = 0`
the Python loop never terminates (see the loop-offset analysis below). -/
def fragmentChunks {α : Type} (f : Nat) (s : List α) : List (List α) :=
  fragmentChunksFuel f s.length s

theorem fragmentChunksFuel_agree {α : Type} (f : Nat) :
    ∀ (fuel1 fuel2 : Nat) (s : List α), s.length ≤ fuel1 → s.length ≤ fuel2 →
      fragmentChunksFuel (f + 1) fuel1 s = fragmentChunksFuel (f + 1) fuel2 s := by
  intro fuel1
  induction fuel1 with
  | zero =>
    intro fuel2 s h1 h2
    have hnil : s = [] := List.eq_nil_of_length_eq_zero (by omega)
    subst hnil
    cases fuel2 <;> rfl
  | succ fuel1 ih =>
    intro fuel2 s h1 h2
    match s with
    | [] => cases fuel2 <;> rfl
    | a :: s =>
      match fuel2 with
      | fuel2 + 1 =>
        simp only [fragmentChunksFuel]
        congr 1
        apply ih
        · simp only [List.length_cons] at h1
          simp [List.length_drop]
          omega
        · simp only [List.length_cons] at h2
          simp [List.length_drop]
          omega

theorem fragmentChunks_nil {α : Type} (f : Nat) : fragmentChunks f ([] : List α) = [] := by
  rfl

theorem fragmentChunks_cons {α : Type} (f : Nat) (a : α) (s : List α) :
    fragmentChunks (f + 1) (a :: s) = (a :: s.take f) :: fragmentChunks (f + 1) (s.drop f) := by
  show fragmentChunksFuel (f + 1) (s.length + 1) (a :: s)
      = (a :: s.take f) :: fragmentChunksFuel (f + 1) (s.drop f).length (s.drop f)
  simp only [fragmentChunksFuel, List.take_succ_cons, List.drop_succ_cons]
  congr 1
  apply fragmentChunksFuel_agree
  · simp [List.length_drop]
  · exact le_rfl

theorem fragmentChunks_length {α : Type} (f : Nat) (s : List α) :
    (fragmentChunks (f + 1) s).length = (s.length + f) / (f + 1) := by
  suffices h : ∀ n, ∀ s : List α, s.length ≤ n →
      (fragmentChunks (f + 1) s).length = (s.length + f) / (f + 1) from
    h s.length s le_rfl
  intro n
  induction n with
  | zero =>
    intro s hs
    have hnil : s = [] := List.eq_nil_of_length_eq_zero (by omega)
    subst hnil
    rw [fragmentChunks_nil]
    simp only [List.length_nil, Nat.zero_add]
    exact (Nat.div_eq_of_lt (by omega)).symm
  | succ n ih =>
    intro s hs
    match s with
    | [] =>
      rw [fragmentChunks_nil]
      simp only [List.length_nil, Nat.zero_add]
      exact (Nat.div_eq_of_lt (by omega)).symm
    | a :: s =>
      rw [fragmentChunks_cons]
      simp only [List.length_cons] at hs ⊢
      have hdrop : (s.drop f).length = s.length - f := List.length_drop f s
      have hrec := ih (s.drop f) (by omega)
      rw [hrec, hdrop]
      rcases Nat.le_total s.length f with hle | hle
      · have h1 : s.length - f = 0 := by omega
        rw [h1, Nat.zero_add]
        have h2 : f / (f + 1) = 0 := Nat.div_eq_of_lt (by omega)
        have h3 : (s.length + 1 + f) / (f + 1) = 1 := by
          apply Nat.div_eq_of_lt_le <;> omega
        omega
      · have h1 : s.length - f + f = s.length := by omega
        have h2 : s.length + 1 + f = (s.length - f + f) + (f + 1) := by omega
        rw [h2, Nat.add_div_right _ (Nat.succ_pos f)]

theorem fragmentChunks_sum_length {α : Type} (f : Nat) (s : List α) :
    ((fragmentChunks (f + 1) s).map List.length).sum = s.length := by
  suffices h : ∀ n, ∀ s : List α, s.length ≤ n →
      ((fragmentChunks (f + 1) s).map List.length).sum = s.length from
    h s.length s le_rfl
  intro n
  induction n with
  | zero =>
    intro s hs
    have hnil : s = [] := List.eq_nil_of_length_eq_zero (by omega)
    subst hnil
    simp [fragmentChunks_nil]
  | succ n ih =>
    intro s hs
    match s with
    | [] => simp [fragmentChunks_nil]
    | a :: s =>
      rw [fragmentChunks_cons]
      simp only [List.length_cons] at hs
      have hdrop : (s.drop f).length = s.length - f := List.length_drop f s
      have hrec := ih (s.drop f) (by omega)
      simp only [List.map_cons, List.sum_cons, hrec, hdrop, List.length_cons,
        List.length_take]
      omega

theorem fragmentChunks_mem_length {α : Type} (f : Nat) (s : List α) :
    ∀ c ∈ fragmentChunks (f + 1) s, 1 ≤ c.length ∧ c.length ≤ f + 1 := by
  suffices h : ∀ n, ∀ s : List α, s.length ≤ n →
      ∀ c ∈ fragmentChunks (f + 1) s, 1 ≤ c.length ∧ c.length ≤ f + 1 from
    h s.length s le_rfl
  intro n
  induction n with
  | zero =>
    intro s hs
    have hnil : s = [] := List.eq_nil_of_length_eq_zero (by omega)
    subst hnil
    simp [fragmentChunks_nil]
  | succ n ih =>
    intro s hs
    match s with
    | [] => simp [fragmentChunks_nil]
    | a :: s =>
      rw [fragmentChunks_cons]
      intro c hc
      rcases List.mem_cons.mp hc with h | h
      · subst h
        simp only [List.length_cons, List.length_take]
        omega
      · simp only [List.length_cons] at hs
        exact ih (s.drop f) (by simp [List.length_drop]; omega) c h

theorem fragmentChunks_dropLast_length {α : Type} (f : Nat) (s : List α) :
    ∀ c ∈ (fragmentChunks (f + 1) s).dropLast, c.length = f + 1 := by
  suffices h : ∀ n, ∀ s : List α, s.length ≤ n →
      ∀ c ∈ (fragmentChunks (f + 1) s).dropLast, c.length = f + 1 from
    h s.length s le_rfl
  intro n
  induction n with
  | zero =>
    intro s hs
    have hnil : s = [] := List.eq_nil_of_length_eq_zero (by omega)
    subst hnil
    simp [fragmentChunks_nil]
  | succ n ih =>
    intro s hs
    match s with
    | [] => simp [fragmentChunks_nil]
    | a :: s =>
      rw [fragmentChunks_cons]
      intro c hc
      rcases hrest : fragmentChunks (f + 1) (s.drop f) with - | ⟨r, rs⟩
      · rw [hrest] at hc
        simp at hc
      · rw [hrest, List.dropLast_cons_of_ne_nil (by simp)] at hc
        rcases List.mem_cons.mp hc with h | h
        · subst h
          have hne : s.drop f ≠ [] := by
            intro hnil
            rw [hnil, fragmentChunks_nil] at hrest
            exact List.noConfusion hrest
          have hfs : f ≤ s.length := by
            by_contra hlt
            exact hne (List.drop_eq_nil_of_le (by omega))
          simp only [List.length_cons, List.length_take]
          omega
        · have h' : c ∈ (fragmentChunks (f + 1) (s.drop f)).dropLast := by
            rw [hrest]
            exact h
          simp only [List.length_cons] at hs
          exact ih (s.drop f) (by simp [List.length_drop]; omega) c h'

/-! ### Properties of fragment IDs -/

theorem decRepr_ne_nil (n : Nat) : decRepr n ≠ [] := by
  by_cases h : n = 0
  · subst h
    simp [decRepr]
  · simp [decRepr, h, Nat.digits_ne_nil_iff_ne_zero.mpr h]

theorem decRepr_lt_ten (n : Nat) : ∀ d ∈ decRepr n, d < 10 := by
  intro d hd
  by_cases h : n = 0
  · subst h
    simp [decRepr] at hd
    omega
  · simp only [decRepr, h, if_false, List.mem_reverse] at hd
    exact Nat.digits_lt_base (by omega) hd

theorem pad5_lt_ten (n : Nat) : ∀ d ∈ pad5 n, d < 10 := by
  intro d hd
  rcases List.mem_append.mp hd with h | h
  · have := List.eq_of_mem_replicate h
    omega
  · exact decRepr_lt_ten n d h

theorem decRepr_head_ne_zero {n : Nat} (hn : n ≠ 0) :
    ∀ d l, decRepr n = d :: l → d ≠ 0 := by
  intro d l hdl
  have hrevd : (Nat.digits 10 n).reverse = d :: l := by
    simpa [decRepr, hn] using hdl
  have hrev : Nat.digits 10 n = l.reverse ++ [d] := by
    calc Nat.digits 10 n = (Nat.digits 10 n).reverse.reverse := (List.reverse_reverse _).symm
    _ = (d :: l).reverse := by rw [hrevd]
    _ = l.reverse ++ [d] := by simp
  have hlast := Nat.getLast_digit_ne_zero 10 hn
  simp only [hrev, List.getLast_append_singleton] at hlast
  exact hlast

theorem digitChar_injOn {a b : Nat} (ha : a < 10) (hb : b < 10)
    (h : Nat.digitChar a = Nat.digitChar b) : a = b := by
  interval_cases a <;> interval_cases b <;> revert h <;> decide

theorem map_digitChar_inj :
    ∀ l1 l2 : List Nat, (∀ d ∈ l1, d < 10) → (∀ d ∈ l2, d < 10) →
      l1.map Nat.digitChar = l2.map Nat.digitChar → l1 = l2 := by
  intro l1
  induction l1 with
  | nil =>
    intro l2 _ _ h
    cases l2 with
    | nil => rfl
    | cons b t => simp at h
  | cons a t ih =>
    intro l2 h1 h2 h
    cases l2 with
    | nil => simp at h
    | cons b t2 =>
      simp only [List.map_cons, List.cons.injEq] at h
      have hab : a = b := digitChar_injOn (h1 a (by simp)) (h2 b (by simp)) h.1
      subst hab
      rw [ih t2 (fun d hd => h1 d (by simp [hd])) (fun d hd => h2 d (by simp [hd])) h.2]

theorem replicate_zero_append_inj :
    ∀ k1 k2 : Nat, ∀ d1 d2 : Nat, ∀ l1 l2 : List Nat, d1 ≠ 0 → d2 ≠ 0 →
      List.replicate k1 0 ++ (d1 :: l1) = List.replicate k2 0 ++ (d2 :: l2) →
      d1 = d2 ∧ l1 = l2 := by
  intro k1
  induction k1 with
  | zero =>
    intro k2 d1 d2 l1 l2 h1 h2 h
    cases k2 with
    | zero => simpa using h
    | succ k2 =>
      simp only [List.replicate_succ, List.replicate_zero, List.nil_append,
        List.cons_append, List.cons.injEq] at h
      exact absurd h.1 h1
  | succ k1 ih =>
    intro k2 d1 d2 l1 l2 h1 h2 h
    cases k2 with
    | zero =>
      simp only [List.replicate_succ, List.replicate_zero, List.nil_append,
        List.cons_append, List.cons.injEq] at h
      exact absurd h.1.symm h2
    | succ k2 =>
      simp only [List.replicate_succ, List.cons_append, List.cons.injEq] at h
      exact ih k2 d1 d2 l1 l2 h1 h2 h.2

theorem decRepr_inj {a b : Nat} (h : decRepr a = decRepr b) : a = b := by
  by_cases ha : a = 0 <;> by_cases hb : b = 0
  · omega
  · obtain ⟨d, l, hd⟩ : ∃ d l, decRepr b = d :: l := by
      cases hdb : decRepr b with
      | nil => exact absurd hdb (decRepr_ne_nil b)
      | cons d l => exact ⟨d, l, rfl⟩
    have : d ≠ 0 := decRepr_head_ne_zero hb d l hd
    subst ha
    rw [hd] at h
    simp [decRepr] at h
    exact absurd h.1.symm this
  · obtain ⟨d, l, hd⟩ : ∃ d l, decRepr a = d :: l := by
      cases hda : decRepr a with
      | nil => exact absurd hda (decRepr_ne_nil a)
      | cons d l => exact ⟨d, l, rfl⟩
    have : d ≠ 0 := decRepr_head_ne_zero ha d l hd
    subst hb
    rw [hd] at h
    simp [decRepr] at h
    exact absurd h.1 this
  · have hdig : Nat.digits 10 a = Nat.digits 10 b := by
      have h' := congrArg List.reverse h
      simpa [decRepr, ha, hb] using h'
    calc a = Nat.ofDigits 10 (Nat.digits 10 a) := (Nat.ofDigits_digits 10 a).symm
    _ = Nat.ofDigits 10 (Nat.digits 10 b) := by rw [hdig]
    _ = b := Nat.ofDigits_digits 10 b

theorem pad5_inj {a b : Nat} (h : pad5 a = pad5 b) : a = b := by
  apply decRepr_inj
  obtain ⟨da, la, hda⟩ : ∃ d l, decRepr a = d :: l := by
    cases hd : decRepr a with
    | nil => exact absurd hd (decRepr_ne_nil a)
    | cons d l => exact ⟨d, l, rfl⟩
  obtain ⟨db, lb, hdb⟩ : ∃ d l, decRepr b = d :: l := by
    cases hd : decRepr b with
    | nil => exact absurd hd (decRepr_ne_nil b)
    | cons d l => exact ⟨d, l, rfl⟩
  by_cases ha : a = 0 <;> by_cases hb : b = 0
  · subst ha
    subst hb
    rfl
  · exfalso
    have hdbz : db ≠ 0 := decRepr_head_ne_zero hb db lb hdb
    have hmem : db ∈ pad5 b := by
      unfold pad5
      rw [hdb]
      simp
    rw [← h] at hmem
    subst ha
    have : ∀ d ∈ pad5 0, d = 0 := by decide
    exact hdbz (this db hmem)
  · exfalso
    have hdaz : da ≠ 0 := decRepr_head_ne_zero ha da la hda
    have hmem : da ∈ pad5 a := by
      unfold pad5
      rw [hda]
      simp
    rw [h] at hmem
    subst hb
    have : ∀ d ∈ pad5 0, d = 0 := by decide
    exact hdaz (this da hmem)
  · have hdaz : da ≠ 0 := decRepr_head_ne_zero ha da la hda
    have hdbz : db ≠ 0 := decRepr_head_ne_zero hb db lb hdb
    unfold pad5 at h
    rw [hda, hdb] at h
    have := replicate_zero_append_inj _ _ da db la lb hdaz hdbz h
    rw [hda, hdb, this.1, this.2]

theorem fragID_data (n : Nat) :
    (fragID n).data = 'f' :: 'r' :: 'a' :: 'g' :: (pad5 n).map Nat.digitChar := rfl

theorem fragID_inj {a b : Nat} (h : fragID a = fragID b) : a = b := by
  apply pad5_inj
  apply map_digitChar_inj _ _ (pad5_lt_ten a) (pad5_lt_ten b)
  have h' := congrArg String.data h
  rw [fragID_data, fragID_data] at h'
  simpa using h'

theorem pad5_length (n : Nat) : (pad5 n).length = max 5 (decRepr n).length := by
  unfold pad5
  simp [List.length_append, List.length_replicate]
  omega

theorem decRepr_length_le_five {n : Nat} (hn : n ≤ 99999) : (decRepr n).length ≤ 5 := by
  by_cases h : n = 0
  · subst h
    simp [decRepr]
  · have hlt : n < 10 ^ 5 := by omega
    have hlog : Nat.log 10 n < 5 := (Nat.lt_pow_iff_log_lt (by omega) h).mp hlt
    have hlen : (Nat.digits 10 n).length = Nat.log 10 n + 1 :=
      Nat.digits_len 10 n (by omega) h
    simp only [decRepr, h, if_false, List.length_reverse, hlen]
    omega

theorem fragID_length {n : Nat} (hn : n ≤ 99999) : (fragID n).length = 9 := by
  have h5 : (pad5 n).length = 5 := by
    rw [pad5_length]
    have := decRepr_length_le_five hn
    omega
  show (fragID n).data.length = 9
  rw [fragID_data]
  simp [h5]

/-- A fragment as written to the fragment FASTA file: an ID string and the
sliced subsequence. -/
structure Frag where
  id : String
  seq : List Char
deriving DecidableEq, Repr

/-- Sequential numbering of a record's chunks (lines 281-285): the counter
is incremented before each fragment is emitted, so after a running count of
`c` the next chunk receives ID `fragID (c + 1)`. -/
def numberChunks (count : Nat) : List (List Char) → List Frag
  | [] => []
  | c :: cs => ⟨fragID (count + 1), c⟩ :: numberChunks (count + 1) cs

/-- The outer loop over the sequence records of one genome (line 278): the
running fragment counter persists across records and restarts only per call
(per genome), since `count = 0` is set at line 277. -/
def fragmentsOfRecords (fragsize : Nat) : Nat → List (List Char) → List Frag
  | _, [] => []
  | count, r :: rs =>
      numberChunks count (fragmentChunks fragsize r)
        ++ fragmentsOfRecords fragsize (count + (fragmentChunks fragsize r).length) rs

/-- All fragments accumulated in `outseqs` by `fragment_fasta_file` for a
genome given as its list of sequence records. -/
def outseqs (fragsize : Nat) (records : List (List Char)) : List Frag :=
  fragmentsOfRecords fragsize 0 records

/-- Python dict assignment `d[k] = v` on a dict modelled as its
insertion-ordered association list: overwrite in place when the key is
present, append otherwise. -/
def dictInsert (d : List (String × Nat)) (k : String) (v : Nat) : List (String × Nat) :=
  if d.any (fun p => p.1 == k) then d.map (fun p => if p.1 == k then (k, v) else p)
  else d ++ [(k, v)]

/-- The fragment-length map `sizedict` built by `fragment_fasta_file`:
`sizedict[newseq.id] = len(newseq)` executed in emission order. -/
def sizedict (fragsize : Nat) (records : List (List Char)) : List (String × Nat) :=
  (outseqs fragsize records).foldl (fun d fr => dictInsert d fr.id fr.seq.length) []

/-! ### Properties of the per-genome fragment list -/

theorem fragID_injective : Function.Injective fragID := fun _ _ h => fragID_inj h

theorem numberChunks_ids :
    ∀ (cs : List (List Char)) (count : Nat),
      (numberChunks count cs).map Frag.id = (List.range' (count + 1) cs.length).map fragID := by
  intro cs
  induction cs with
  | nil =>
    intro count
    simp [numberChunks]
  | cons c cs ih =>
    intro count
    simp only [numberChunks, List.map_cons, List.length_cons, List.range'_succ]
    rw [ih (count + 1)]

theorem numberChunks_seqs :
    ∀ (cs : List (List Char)) (count : Nat), (numberChunks count cs).map Frag.seq = cs := by
  intro cs
  induction cs with
  | nil =>
    intro count
    simp [numberChunks]
  | cons c cs ih =>
    intro count
    simp [numberChunks, ih (count + 1)]

theorem fragmentsOfRecords_ids (f : Nat) :
    ∀ (rs : List (List Char)) (count : Nat),
      (fragmentsOfRecords f count rs).map Frag.id
        = (List.range' (count + 1)
            ((rs.map (fun r => (fragmentChunks f r).length)).sum)).map fragID := by
  intro rs
  induction rs with
  | nil =>
    intro count
    simp [fragmentsOfRecords]
  | cons r rs ih =>
    intro count
    simp only [fragmentsOfRecords, List.map_append, List.map_cons, List.sum_cons]
    rw [numberChunks_ids, ih]
    rw [← List.map_append]
    congr 1
    have harr := List.range'_append_1 (count + 1) ((fragmentChunks f r).length)
      ((rs.map (fun r => (fragmentChunks f r).length)).sum)
    have hstart : count + (fragmentChunks f r).length + 1
        = count + 1 + (fragmentChunks f r).length := by omega
    rw [hstart, harr]
    congr 1
    omega

theorem fragmentsOfRecords_seqs (f : Nat) :
    ∀ (rs : List (List Char)) (count : Nat),
      (fragmentsOfRecords f count rs).map Frag.seq = (rs.map (fragmentChunks f)).flatten := by
  intro rs
  induction rs with
  | nil =>
    intro count
    simp [fragmentsOfRecords]
  | cons r rs ih =>
    intro count
    simp only [fragmentsOfRecords, List.map_append, List.map_cons, List.flatten_cons]
    rw [numberChunks_seqs, ih]

theorem outseqs_ids (f : Nat) (rs : List (List Char)) :
    (outseqs f rs).map Frag.id
      = (List.range' 1 ((rs.map (fun r => (fragmentChunks f r).length)).sum)).map fragID :=
  fragmentsOfRecords_ids f rs 0

theorem outseqs_ids_nodup (f : Nat) (rs : List (List Char)) :
    ((outseqs f rs).map Frag.id).Nodup := by
  rw [outseqs_ids]
  exact (List.nodup_range' _ _).map fragID_injective

theorem foldl_dictInsert_fresh :
    ∀ (frs : List Frag) (d : List (String × Nat)),
      (∀ fr ∈ frs, ∀ p ∈ d, p.1 ≠ fr.id) →
      (frs.map Frag.id).Nodup →
      frs.foldl (fun d fr => dictInsert d fr.id fr.seq.length) d
        = d ++ frs.map (fun fr => (fr.id, fr.seq.length)) := by
  intro frs
  induction frs with
  | nil =>
    intro d _ _
    simp
  | cons fr frs ih =>
    intro d hfresh hnodup
    simp only [List.foldl_cons]
    have hnotin : (d.any (fun p => p.1 == fr.id)) = false := by
      rw [List.any_eq_false]
      intro p hp
      simpa using hfresh fr (by simp) p hp
    have hins : dictInsert d fr.id fr.seq.length = d ++ [(fr.id, fr.seq.length)] := by
      unfold dictInsert
      rw [hnotin]
      simp
    rw [hins]
    simp only [List.map_cons, List.nodup_cons] at hnodup
    have hfresh' : ∀ g ∈ frs, ∀ p ∈ d ++ [(fr.id, fr.seq.length)], p.1 ≠ g.id := by
      intro g hg p hp
      rcases List.mem_append.mp hp with h | h
      · exact hfresh g (by simp [hg]) p h
      · simp only [List.mem_singleton] at h
        subst h
        intro hcontra
        have hcontra' : fr.id = g.id := hcontra
        apply hnodup.1
        rw [hcontra']
        exact List.mem_map_of_mem Frag.id hg
    rw [ih (d ++ [(fr.id, fr.seq.length)]) hfresh' hnodup.2]
    simp

theorem sizedict_eq (f : Nat) (rs : List (List Char)) :
    sizedict f rs = (outseqs f rs).map (fun fr => (fr.id, fr.seq.length)) := by
  unfold sizedict
  rw [foldl_dictInsert_fresh (outseqs f rs) [] (by simp) (outseqs_ids_nodup f rs)]
  simp

theorem fragmentChunks_getLast_length {α : Type} (f : Nat) (s : List α) (hs : s ≠ []) :
    ((fragmentChunks (f + 1) s).getLast?).map List.length
      = some (s.length - ((fragmentChunks (f + 1) s).length - 1) * (f + 1)) := by
  have hne : fragmentChunks (f + 1) s ≠ [] := by
    match s with
    | a :: s =>
      rw [fragmentChunks_cons]
      simp
  have hsplit := List.dropLast_append_getLast hne
  have hsum := fragmentChunks_sum_length f s
  have hsum2 : (((fragmentChunks (f + 1) s).dropLast
        ++ [(fragmentChunks (f + 1) s).getLast hne]).map List.length).sum = s.length := by
    rw [hsplit]
    exact hsum
  simp only [List.map_append, List.sum_append, List.map_cons, List.map_nil,
    List.sum_cons, List.sum_nil] at hsum2
  have hconst : (((fragmentChunks (f + 1) s).dropLast).map List.length).sum
      = ((fragmentChunks (f + 1) s).dropLast).length * (f + 1) := by
    rw [List.sum_eq_card_nsmul _ (f + 1)]
    · simp [smul_eq_mul]
    · intro x hx
      rcases List.mem_map.mp hx with ⟨c, hc, hcx⟩
      rw [← hcx]
      exact fragmentChunks_dropLast_length f s c hc
  have hlen : ((fragmentChunks (f + 1) s).dropLast).length
      = (fragmentChunks (f + 1) s).length - 1 :=
    List.length_dropLast _
  rw [List.getLast?_eq_getLast _ hne, Option.map_some']
  congr 1
  rw [hconst, hlen] at hsum2
  omega

/-- Pure content of `fragment_fasta_file` (lines 275-291 of
`subcmd_anib.py`): the fragment records written to the single output file
`<outdir>/<stem>-fragments.fasta`, and the fragment-length map returned
(JSON-serialised in the source) alongside the path. -/
def fragment_fasta_file (fragsize : Nat) (records : List (List Char)) :
    List Frag × List (String × Nat) :=
  (outseqs fragsize records, sizedict fragsize records)

/-! ### Offset model of the fragmenting while loop

Lines 279-286 of `subcmd_anib.py`: `idx = 0` and then
`while idx < len(seq): ...; idx += fragsize`.  Python integers are
unbounded, and nothing constrains `args.fragsize` to be positive, so the
offset is modelled over the integers: after `n` iterations it equals
`n * fragsize`. -/

/-- Offset held by `idx` after `n` iterations of the fragmenting loop. -/
def fragLoopIdx (fragsize : Int) : Nat → Int
  | 0 => 0
  | n + 1 => fragLoopIdx fragsize n + fragsize

/-- The fragmenting while loop on a record of length `len` terminates iff
after finitely many iterations the offset fails the guard `idx < len`. -/
def fragLoopTerminates (fragsize : Int) (len : Nat) : Prop :=
  ∃ n, ¬ fragLoopIdx fragsize n < (len : Int)

theorem fragLoopIdx_eq (fragsize : Int) (n : Nat) :
    fragLoopIdx fragsize n = n * fragsize := by
  induction n with
  | zero => simp [fragLoopIdx]
  | succ n ih =>
    simp only [fragLoopIdx, ih]
    push_cast
    ring

/-! ### Comparison-pair enumeration

Line 179 of `subcmd_anib.py`:
`comparisons = list(permutations(tqdm(genomes, ...), 2))`.
`itertools.permutations(genomes, 2)` yields, for each position `i` in
order and then each position `j ≠ i` in order, the ordered pair of the
elements at positions `i` and `j`. -/

/-- itertools.permutations of a list taken two at a time, by position. -/
def permutations2 {α : Type} (l : List α) : List (α × α) :=
  l.enum.flatMap (fun p =>
    (l.enum.filter (fun q => q.1 != p.1)).map (fun q => (p.2, q.2)))

theorem enumFrom_filter_ne_length {α : Type} :
    ∀ (l : List α) (i j : Nat),
      ((List.enumFrom i l).filter (fun q => q.1 != j)).length
        = if i ≤ j ∧ j < i + l.length then l.length - 1 else l.length := by
  intro l
  induction l with
  | nil =>
    intro i j
    simp only [List.enumFrom_nil, List.filter_nil, List.length_nil, Nat.add_zero]
    rw [if_neg (by omega)]
  | cons a t ih =>
    intro i j
    by_cases hij : i = j
    · subst hij
      have hhead : ((i, a).1 != i) = false := by simp
      simp only [List.enumFrom_cons, List.filter_cons, hhead]
      rw [if_neg Bool.false_ne_true]
      rw [ih (i + 1) i, if_neg (by omega), if_pos (by simp only [List.length_cons]; omega)]
      simp
    · have hhead : ((i, a).1 != j) = true := by simp [hij]
      simp only [List.enumFrom_cons, List.filter_cons, hhead]
      rw [if_pos trivial, List.length_cons, ih (i + 1) j]
      by_cases hc : i + 1 ≤ j ∧ j < i + 1 + t.length
      · rw [if_pos hc, if_pos (by simp only [List.length_cons]; omega)]
        simp only [List.length_cons]
        omega
      · rw [if_neg hc, if_neg (by simp only [List.length_cons]; omega)]
        simp

theorem enum_filter_ne_length {α : Type} (l : List α) (j : Nat) (hj : j < l.length) :
    ((l.enum.filter (fun q => q.1 != j)).length) = l.length - 1 := by
  have h := enumFrom_filter_ne_length l 0 j
  rw [if_pos (by omega)] at h
  simpa [List.enum] using h

theorem mem_enum_fst_lt {α : Type} {l : List α} {p : Nat × α} (hp : p ∈ l.enum) :
    p.1 < l.length := by
  have h : p.1 ∈ l.enum.map Prod.fst := List.mem_map_of_mem _ hp
  rw [List.enum_map_fst] at h
  simpa [List.mem_range] using h

theorem permutations2_length {α : Type} (l : List α) :
    (permutations2 l).length = l.length * (l.length - 1) := by
  unfold permutations2
  rw [List.length_flatMap]
  rw [List.sum_eq_card_nsmul _ (l.length - 1)]
  · simp [List.enum_length, smul_eq_mul]
  · intro x hx
    rcases List.mem_map.mp hx with ⟨p, hp, hpx⟩
    rw [← hpx]
    simp only [Function.comp_apply, List.length_map]
    exact enum_filter_ne_length l p.1 (mem_enum_fst_lt hp)

theorem enum_snd_injOn {α : Type} {l : List α} (hl : l.Nodup) :
    ∀ q ∈ l.enum, ∀ q2 ∈ l.enum, q.2 = q2.2 → q = q2 := by
  have hsnd : (l.enum.map Prod.snd).Nodup := by
    rw [List.enum_map_snd]
    exact hl
  exact fun q hq q2 hq2 h => List.inj_on_of_nodup_map hsnd hq hq2 h

theorem enum_nodup {α : Type} (l : List α) : l.enum.Nodup := by
  have h : (l.enum.map Prod.fst).Nodup := by
    rw [List.enum_map_fst]
    exact List.nodup_range _
  exact h.of_map

theorem permutations2_nodup {α : Type} (l : List α) (hl : l.Nodup) :
    (permutations2 l).Nodup := by
  unfold permutations2
  apply List.nodup_flatMap.2
  constructor
  · intro p hp
    apply List.Nodup.map_on
    · intro q hq q2 hq2 heq
      have hq' : q ∈ l.enum := List.mem_of_mem_filter hq
      have hq2' : q2 ∈ l.enum := List.mem_of_mem_filter hq2
      have : q.2 = q2.2 := by
        have := congrArg Prod.snd heq
        simpa using this
      exact enum_snd_injOn hl q hq' q2 hq2' this
    · exact (enum_nodup l).filter _
  · apply List.Pairwise.imp_of_mem ?imp (enum_nodup l)
    intro p p2 hp hp2 hne
    intro pr hpr hpr2
    rcases List.mem_map.mp hpr with ⟨q, hq, hqe⟩
    rcases List.mem_map.mp hpr2 with ⟨q2, hq2, hqe2⟩
    have hfst : p.2 = p2.2 := by
      have h1 := congrArg Prod.fst hqe
      have h2 := congrArg Prod.fst hqe2
      simp only at h1 h2
      rw [h1, h2]
    exact hne (enum_snd_injOn hl p hp p2 hp2 hfst)

theorem permutations2_no_self {α : Type} (l : List α) (hl : l.Nodup) :
    ∀ pr ∈ permutations2 l, pr.1 ≠ pr.2 := by
  intro pr hpr
  unfold permutations2 at hpr
  rcases List.mem_flatMap.mp hpr with ⟨p, hp, hin⟩
  rcases List.mem_map.mp hin with ⟨q, hq, hqe⟩
  have hq' : q ∈ l.enum := List.mem_of_mem_filter hq
  intro heq
  have heq' : p.2 = q.2 := by
    rw [← hqe] at heq
    exact heq
  have hpq : p = q := enum_snd_injOn hl p hp q hq' heq'
  have hne := (List.mem_filter.mp hq).2
  rw [hpq] at hne
  simp at hne

/-! ### Control-flow model of subcmd_anib

Lines 91-238 of `subcmd_anib.py`, embedded as a function from the outcome
of each external effect (in source order) to the observable result of the
call.  The model captures, for each way an effect can fail, which handler
(if any) catches the exception and what the function does next, exactly as
the source's try/except blocks dictate. -/

/-- How a call of subcmd_anib (or of the modelled comparison stage) ends. -/
inductive Outcome where
  | sysExit (code : Nat)
  | sysError (code : Nat)
  | unboundLocal
  | ioError
  | notImplemented
  | returned
deriving DecidableEq, Repr

/-- Whether the Python process stops with a nonzero exit status when the
call ends this way at top level: `SystemExit(code)` exits with `code`; any
other uncaught exception terminates the interpreter with status 1; only a
normal return lets the process continue (and eventually exit 0). -/
def Outcome.haltsNonzero : Outcome → Bool
  | .sysExit c => c != 0
  | .sysError _ => true
  | .unboundLocal => true
  | .ioError => true
  | .notImplemented => true
  | .returned => false

/-- Success or failure of each external effect performed by subcmd_anib,
listed in source order. -/
structure Env where
  getSessionOk : Bool
  addRunOk : Bool
  addRunGenomesOk : Bool
  makedirsOutdirOk : Bool
  makedirsSubdirsOk : Bool
  fragmentsOk : Bool
deriving DecidableEq, Repr

/-- Observable result of one call of subcmd_anib. -/
structure RunResult where
  outcome : Outcome
  runStatus : Option String
  enumeratedComparisons : Bool
  jobsBuilt : Nat
  externalInvocations : Nat
deriving DecidableEq, Repr

/-- Control flow of subcmd_anib, lines 91-238 of `subcmd_anib.py`:

* lines 104-110: `get_session` failure is caught and `SystemExit(1)` raised;
* lines 114-125: `add_run` failure is caught and `SystemExit(1)` raised;
  on success the run row is created with status `"started"` (line 120);
* lines 130-137: `add_run_genomes` failure is caught and only logged — the
  handler does not re-raise, so control falls through to line 138, whose
  f-string reads the local `genome_ids` that was never assigned, raising
  `UnboundLocalError` (a `NameError`);
* lines 148-154: `os.makedirs(args.outdir)` failure is caught and
  `SystemError(1)` raised;
* lines 158-159: the two subdirectory `os.makedirs` calls sit outside any
  try/except, so a failure propagates;
* lines 164-168: `fragment_fasta_file` is called per genome with no
  handler, so a failure propagates;
* line 173: `raise NotImplementedError`, unconditionally, before the
  comparison enumeration at line 179 — so no comparison is enumerated, no
  job is built, no external process is started, and the run status is
  never advanced beyond `"started"`. -/
def subcmd_anib (env : Env) : RunResult :=
  if !env.getSessionOk then
    ⟨Outcome.sysExit 1, none, false, 0, 0⟩
  else if !env.addRunOk then
    ⟨Outcome.sysExit 1, none, false, 0, 0⟩
  else if !env.addRunGenomesOk then
    ⟨Outcome.unboundLocal, some "started", false, 0, 0⟩
  else if !env.makedirsOutdirOk then
    ⟨Outcome.sysError 1, some "started", false, 0, 0⟩
  else if !env.makedirsSubdirsOk then
    ⟨Outcome.ioError, some "started", false, 0, 0⟩
  else if !env.fragmentsOk then
    ⟨Outcome.ioError, some "started", false, 0, 0⟩
  else
    ⟨Outcome.notImplemented, some "started", false, 0, 0⟩

/-! ### The comparison stage after the NotImplementedError

Lines 175-238 of `subcmd_anib.py` are written out in the source but sit
after the unconditional `raise NotImplementedError` of line 173, so
`subcmd_anib` never executes them.  They are embedded here as their own
function, exactly as written, so that their behaviour can be analysed.
The persistent-store helpers they call (`filter_existing_comparisons`,
`update_comparison_matrices`, both from `pyani.pyani_orm`) are not part of
the provided sources and are modelled from the spec. -/

/-- Identity of a stored comparison: (query genome, reference genome,
program, version, fragment size); the source passes `None` for the extra
maxmatch parameter, which is therefore omitted. -/
structure CompKey where
  query : Nat
  reference : Nat
  program : String
  version : String
  fragsize : Nat
deriving DecidableEq, Repr

/-- Stored per-pair comparison statistics (identity and coverage fractions;
the further fields play no role in the claims settled here). -/
structure CompResult where
  identity : Rat
  coverage : Rat
deriving DecidableEq, Repr

/-- Modelled from the spec: the persistent store's comparison table
(`pyani.pyani_orm`, not under the provided sources), holding one result per
comparison key. -/
structure Store where
  comparisons : List (CompKey × CompResult)
deriving DecidableEq, Repr

/-- First stored result for a key, if any. -/
def Store.lookup (store : Store) (k : CompKey) : Option CompResult :=
  (store.comparisons.find? (fun kv => kv.1 == k)).map Prod.snd

/-- Modelled from the spec: `filter_existing_comparisons` of
`pyani.pyani_orm` (not under the provided sources), per spec section 4.3 —
candidate pairs with a stored comparison under the same program, version
and fragment size are attached to the run and removed; the rest remain
pending.  Called at lines 186-188 with program `"blastn"`. -/
def filter_existing_comparisons (store : Store) (program version : String)
    (fragsize : Nat) (comparisons : List (Nat × Nat)) : List (Nat × Nat) :=
  comparisons.filter (fun pr =>
    !(store.comparisons.any (fun kv =>
        kv.1 == ⟨pr.1, pr.2, program, version, fragsize⟩)))

/-- Summary matrices of a run: one cell per ordered genome pair; `none`
marks a pair with no stored result. -/
structure SummaryMatrices where
  identity : List ((Nat × Nat) × Option Rat)
  coverage : List ((Nat × Nat) × Option Rat)
  hadamard : List ((Nat × Nat) × Option Rat)
deriving DecidableEq, Repr

/-- Modelled from the spec: one cell of the run's matrices (spec sections
3 and 4.6) — the diagonal holds the fixed self-comparison values
(identity 1, full coverage), off-diagonal cells hold the stored result for
the ordered pair. -/
def matrixCell (store : Store) (program version : String) (fragsize : Nat)
    (q r : Nat) : Option CompResult :=
  if q = r then some ⟨1, 1⟩
  else store.lookup ⟨q, r, program, version, fragsize⟩

/-- Modelled from the spec: `update_comparison_matrices` of
`pyani.pyani_orm` (not under the provided sources), per spec sections 4.6
and 3 — fold the run's stored results into the summary matrices, with the
Hadamard matrix the element-wise product of identity and coverage.  Called
at line 198. -/
def update_comparison_matrices (store : Store) (genomes : List Nat)
    (program version : String) (fragsize : Nat) : SummaryMatrices :=
  let cells := genomes.flatMap (fun q => genomes.map (fun r =>
    ((q, r), matrixCell store program version fragsize q r)))
  ⟨cells.map (fun c => (c.1, c.2.map CompResult.identity)),
   cells.map (fun c => (c.1, c.2.map CompResult.coverage)),
   cells.map (fun c => (c.1, c.2.map (fun res => res.identity * res.coverage)))⟩

/-- Observable result of the comparison stage. -/
structure StageResult where
  outcome : Outcome
  comparisons : List (Nat × Nat)
  toRun : List (Nat × Nat)
  matrices : Option SummaryMatrices
  jobsBuilt : Nat
  externalInvocations : Nat
deriving DecidableEq, Repr

/-- Lines 175-238 of `subcmd_anib.py`, as written: enumerate all ordered
pairs of distinct run genomes (line 179), drop the pairs already stored
(lines 186-188), and if nothing remains, update the run's summary matrices
from the stored results and return (lines 193-199).  Otherwise the code
proceeds toward job construction, and `generate_joblist` (called at line
233) raises NotImplementedError at line 258 before building any job, so in
either branch no aligner job is built and no external process starts. -/
def anib_comparison_stage (store : Store) (genomes : List Nat)
    (version : String) (fragsize : Nat) : StageResult :=
  let comparisons := permutations2 genomes
  let toRun := filter_existing_comparisons store "blastn" version fragsize comparisons
  if toRun.isEmpty then
    { outcome := Outcome.returned
      comparisons := comparisons
      toRun := toRun
      matrices := some (update_comparison_matrices store genomes "blastn" version fragsize)
      jobsBuilt := 0
      externalInvocations := 0 }
  else
    { outcome := Outcome.notImplemented
      comparisons := comparisons
      toRun := toRun
      matrices := none
      jobsBuilt := 0
      externalInvocations := 0 }

/-! ### File-system model of the fragment-file write

Lines 288-291 of `subcmd_anib.py`: the fragments are written with
`SeqIO.write(outseqs, fragpath, "fasta")` directly to the final path
`outdir / f"{inpath.stem}-fragments.fasta"` — no temporary file, no
rename.  The function has no try/except, so an exception raised during the
write propagates to the caller and the `(fragpath, json)` pair is never
returned. -/

/-- Outcome of the write call: complete, or interrupted after `k`
fragments have been written. -/
inductive WriteOutcome where
  | ok
  | failAfter (k : Nat)
deriving DecidableEq, Repr

/-- State of the file system after the call: the content found at the
final output path, and the temporary paths used (the source uses none). -/
structure FragWriteState where
  finalFile : Option (List Frag)
  tmpPaths : List String
deriving DecidableEq, Repr

/-- fragment_fasta_file including its write step: the fragments are
written straight to the final path; a write interrupted after `k`
fragments leaves that prefix at the final path and the exception
propagates, so the function returns no value. -/
def fragment_fasta_file_effects (fragsize : Nat) (records : List (List Char))
    (w : WriteOutcome) : FragWriteState × Except Unit (List Frag × List (String × Nat)) :=
  match w with
  | WriteOutcome.ok =>
      (⟨some (outseqs fragsize records), []⟩,
       Except.ok (outseqs fragsize records, sizedict fragsize records))
  | WriteOutcome.failAfter k =>
      (⟨some ((outseqs fragsize records).take k), []⟩, Except.error ())

/-! ### Model of write_run_heatmaps (subcmd_plot.py)

Lines 98-133 of `subcmd_plot.py`.  The function takes a `run_id`
parameter, but every database access uses `args.run_id` instead: the Run
row (lines 112-114), the matrix labels (line 115) and the matrix classes
(line 116) are all keyed on `args.run_id`.  The `run_id` parameter is used
only in the output file names and plot titles built by `write_heatmap`
(lines 184, 191) and `write_distribution` (lines 152, 158). -/

/-- A stored Run row as consumed by write_run_heatmaps: the five
serialised result matrices read at lines 122-126. -/
structure RunRow where
  df_identity : String
  df_coverage : String
  df_alnlength : String
  df_simerrors : String
  df_hadamard : String
deriving DecidableEq, Repr

/-- Database session interface used by write_run_heatmaps; every accessor
takes the raw query key the source passes, namely `args.run_id`. -/
structure PlotSession where
  runByFilter : String → Option RunRow
  matrixLabels : String → List (Nat × String)
  matrixClasses : String → List (Nat × String)

/-- Command-line arguments consumed by write_run_heatmaps.  `run_id` is
the raw (possibly comma-separated) string from the command line, which
`subcmd_plot` splits at line 90 — but `write_run_heatmaps` uses the
unsplit `args.run_id` in its queries. -/
structure PlotArgs where
  run_id : String
  outdir : String
  method : String
deriving DecidableEq, Repr

/-- The five matrices plotted, in the order of lines 122-126. -/
def matrixNames : List String :=
  ["identity", "coverage", "aln_lengths", "sim_errors", "hadamard"]

/-- Observable behaviour of one write_run_heatmaps call: the data
retrieved from the database and the file names and titles of the plots
written. -/
structure HeatmapsOutput where
  results : Option RunRow
  labels : List (Nat × String)
  classes : List (Nat × String)
  heatmapFiles : List String
  heatmapTitles : List String
  distFiles : List String
  distTitles : List String
deriving DecidableEq, Repr

/-- write_run_heatmaps, lines 98-133 of `subcmd_plot.py`, together with
the names and titles produced by its callees write_heatmap (lines 184,
191) and write_distribution (lines 152, 158) for each matrix and output
format.  All three database reads are keyed by `args.run_id`; the
`run_id` parameter appears only in file names and titles. -/
def write_run_heatmaps (run_id : Nat) (session : PlotSession)
    (outfmts : List String) (args : PlotArgs) : HeatmapsOutput :=
  { results := session.runByFilter args.run_id
    labels := session.matrixLabels args.run_id
    classes := session.matrixClasses args.run_id
    heatmapFiles := matrixNames.flatMap (fun m => outfmts.map (fun fmt =>
      args.outdir ++ "/matrix_" ++ m ++ "_run" ++ toString run_id ++ "." ++ fmt))
    heatmapTitles := matrixNames.map (fun m =>
      "matrix_" ++ m ++ "_run" ++ toString run_id)
    distFiles := matrixNames.flatMap (fun m => outfmts.map (fun fmt =>
      args.outdir ++ "/distribution_" ++ m ++ "_run" ++ toString run_id ++ "." ++ fmt))
    distTitles := matrixNames.map (fun m =>
      "matrix_" ++ m ++ "_run" ++ toString run_id) }

/-! ## The claims -/

/-- C1: for a genome whose sequence records have lengths L1..Lk and any
fragment size F >= 1, fragment_fasta_file emits, record by record in file
order, exactly ceil(Li/F) fragments for record i (in natural-number
arithmetic, (Li + (F-1)) / F); every fragment except possibly the last of
a record has length F; the last fragment of a record holds exactly the
remaining length — between 1 and F, so it is emitted and neither padded
nor dropped; and the lengths recorded in the returned fragment-length map
sum to L1 + ... + Lk. -/
theorem C1_fragment_counts_and_sums (F : Nat) (hF : 1 ≤ F)
    (records : List (List Char)) :
    ((outseqs F records).map Frag.seq = (records.map (fragmentChunks F)).flatten)
    ∧ (∀ r ∈ records, (fragmentChunks F r).length = (r.length + (F - 1)) / F)
    ∧ (∀ r ∈ records, ∀ c ∈ (fragmentChunks F r).dropLast, c.length = F)
    ∧ (∀ r ∈ records, ∀ c ∈ fragmentChunks F r, 1 ≤ c.length ∧ c.length ≤ F)
    ∧ (∀ r ∈ records, r ≠ [] →
        ((fragmentChunks F r).getLast?).map List.length
          = some (r.length - ((fragmentChunks F r).length - 1) * F))
    ∧ ((sizedict F records).map Prod.snd).sum = (records.map List.length).sum := by
  obtain ⟨f, rfl⟩ : ∃ f, F = f + 1 := ⟨F - 1, by omega⟩
  refine ⟨fragmentsOfRecords_seqs _ records 0, ?_, ?_, ?_, ?_, ?_⟩
  · intro r hr
    simpa using fragmentChunks_length f r
  · intro r hr
    exact fragmentChunks_dropLast_length f r
  · intro r hr
    exact fragmentChunks_mem_length f r
  · intro r hr hne
    simpa using fragmentChunks_getLast_length f r hne
  · rw [sizedict_eq]
    have h1 : (((outseqs (f + 1) records).map
          (fun fr => (fr.id, fr.seq.length))).map Prod.snd)
        = ((outseqs (f + 1) records).map Frag.seq).map List.length := by
      simp [List.map_map, Function.comp]
    rw [h1]
    rw [show (outseqs (f + 1) records).map Frag.seq
        = (records.map (fragmentChunks (f + 1))).flatten
      from fragmentsOfRecords_seqs (f + 1) records 0]
    have h2 : ∀ rs : List (List Char),
        (((rs.map (fragmentChunks (f + 1))).flatten).map List.length).sum
          = (rs.map List.length).sum := by
      intro rs
      induction rs with
      | nil => simp
      | cons r rs ih =>
        simp only [List.map_cons, List.flatten_cons, List.map_append,
          List.sum_append, ih, List.sum_cons]
        rw [fragmentChunks_sum_length f r]
    exact h2 records

/-- Witness for C1 at F = 3 on a genome of two records of lengths 5 and
2: two fragments for the first record, one for the second, and the length
map sums to 7. -/
theorem C1_witness :
    ((outseqs 3 [['A','C','G','T','A'], ['T','T']]).map Frag.seq
        = ([['A','C','G','T','A'], ['T','T']].map (fragmentChunks 3)).flatten)
    ∧ (∀ r ∈ [['A','C','G','T','A'], ['T','T']],
        (fragmentChunks 3 r).length = (r.length + (3 - 1)) / 3)
    ∧ (∀ r ∈ [['A','C','G','T','A'], ['T','T']],
        ∀ c ∈ (fragmentChunks 3 r).dropLast, c.length = 3)
    ∧ (∀ r ∈ [['A','C','G','T','A'], ['T','T']],
        ∀ c ∈ fragmentChunks 3 r, 1 ≤ c.length ∧ c.length ≤ 3)
    ∧ (∀ r ∈ [['A','C','G','T','A'], ['T','T']], r ≠ [] →
        ((fragmentChunks 3 r).getLast?).map List.length
          = some (r.length - ((fragmentChunks 3 r).length - 1) * 3))
    ∧ ((sizedict 3 [['A','C','G','T','A'], ['T','T']]).map Prod.snd).sum
        = ([['A','C','G','T','A'], ['T','T']].map List.length).sum :=
  C1_fragment_counts_and_sums 3 (by decide) [['A','C','G','T','A'], ['T','T']]

/-- C2: for a list of N distinct genomes, the enumeration
list(permutations(genomes, 2)) of line 179 has exactly N * (N - 1) ordered
pairs, contains no duplicate pair, and contains no self-pair. -/
theorem C2_enumeration (genomes : List Nat) (h : genomes.Nodup) :
    (permutations2 genomes).length = genomes.length * (genomes.length - 1)
    ∧ (permutations2 genomes).Nodup
    ∧ ∀ pr ∈ permutations2 genomes, pr.1 ≠ pr.2 :=
  ⟨permutations2_length genomes, permutations2_nodup genomes h,
    permutations2_no_self genomes h⟩

/-- Witness for C2 on three distinct genomes. -/
theorem C2_witness :
    (permutations2 [10, 20, 30]).length = [10, 20, 30].length * ([10, 20, 30].length - 1)
    ∧ (permutations2 [10, 20, 30]).Nodup
    ∧ ∀ pr ∈ permutations2 [10, 20, 30], pr.1 ≠ pr.2 :=
  C2_enumeration [10, 20, 30] (by decide)

/-- C4: whenever the per-genome fragmenting loop completes (every earlier
setup effect succeeded), subcmd_anib ends with NotImplementedError raised
at line 173, before the comparison enumeration of line 179; and for every
environment whatsoever, no comparison is enumerated, no job is built, no
external process is started, and any run row it created still has status
"started". -/
theorem C4_unconditional_notImplemented (env : Env)
    (hsetup : env.getSessionOk = true ∧ env.addRunOk = true
      ∧ env.addRunGenomesOk = true ∧ env.makedirsOutdirOk = true
      ∧ env.makedirsSubdirsOk = true ∧ env.fragmentsOk = true) :
    (subcmd_anib env).outcome = Outcome.notImplemented
    ∧ (subcmd_anib env).runStatus = some "started"
    ∧ ∀ env2 : Env,
        (subcmd_anib env2).enumeratedComparisons = false
        ∧ (subcmd_anib env2).jobsBuilt = 0
        ∧ (subcmd_anib env2).externalInvocations = 0
        ∧ ((subcmd_anib env2).runStatus = none
            ∨ (subcmd_anib env2).runStatus = some "started") := by
  obtain ⟨h1, h2, h3, h4, h5, h6⟩ := hsetup
  refine ⟨?_, ?_, ?_⟩
  · simp [subcmd_anib, h1, h2, h3, h4, h5, h6]
  · simp [subcmd_anib, h1, h2, h3, h4, h5, h6]
  · intro env2
    obtain ⟨g, a, r, m1, m2, fr⟩ := env2
    cases g <;> cases a <;> cases r <;> cases m1 <;> cases m2 <;> cases fr <;>
      simp [subcmd_anib]

/-- Witness for C4 with every effect succeeding. -/
theorem C4_witness :
    (subcmd_anib ⟨true, true, true, true, true, true⟩).outcome = Outcome.notImplemented
    ∧ (subcmd_anib ⟨true, true, true, true, true, true⟩).runStatus = some "started"
    ∧ ∀ env2 : Env,
        (subcmd_anib env2).enumeratedComparisons = false
        ∧ (subcmd_anib env2).jobsBuilt = 0
        ∧ (subcmd_anib env2).externalInvocations = 0
        ∧ ((subcmd_anib env2).runStatus = none
            ∨ (subcmd_anib env2).runStatus = some "started") :=
  C4_unconditional_notImplemented ⟨true, true, true, true, true, true⟩
    ⟨rfl, rfl, rfl, rfl, rfl, rfl⟩

/-- C5 is a code bug: when add_run_genomes raises PyaniORMException (all
earlier effects succeeding), the handler at lines 134-137 only logs — it
does not re-raise, unlike the three sibling handlers that raise
SystemExit(1).  The exception is swallowed and control continues to line
138, which then fails incidentally with UnboundLocalError on the
never-assigned local genome_ids — not with the deliberate immediate raise
the claim describes. -/
theorem C5_addRunGenomes_failure_swallowed :
    (subcmd_anib ⟨true, true, false, true, true, true⟩).outcome = Outcome.unboundLocal
    ∧ (subcmd_anib ⟨true, true, false, true, true, true⟩).outcome ≠ Outcome.sysExit 1 := by
  decide

/-- C7: a store-connection failure ends the call at once with
SystemExit(1) — no run row is created, nothing is enumerated, no job is
built, no external process starts, so the failure is never treated as an
empty store; an output-directory creation failure (with the earlier steps
succeeding) ends the call at once with SystemError(1), likewise before
any comparison job; both outcomes halt the process with a nonzero exit
status. -/
theorem C7_setup_failures_abort (env : Env) :
    (env.getSessionOk = false →
      subcmd_anib env = ⟨Outcome.sysExit 1, none, false, 0, 0⟩
      ∧ (subcmd_anib env).outcome.haltsNonzero = true)
    ∧ (env.getSessionOk = true → env.addRunOk = true → env.addRunGenomesOk = true →
        env.makedirsOutdirOk = false →
      subcmd_anib env = ⟨Outcome.sysError 1, some "started", false, 0, 0⟩
      ∧ (subcmd_anib env).outcome.haltsNonzero = true) := by
  constructor
  · intro h
    constructor
    · simp [subcmd_anib, h]
    · simp [subcmd_anib, h, Outcome.haltsNonzero]
  · intro h1 h2 h3 h4
    constructor
    · simp [subcmd_anib, h1, h2, h3, h4]
    · simp [subcmd_anib, h1, h2, h3, h4, Outcome.haltsNonzero]

/-- Witness for C7: the two setup failures at concrete environments. -/
theorem C7_witness :
    (subcmd_anib ⟨false, true, true, true, true, true⟩
        = ⟨Outcome.sysExit 1, none, false, 0, 0⟩
      ∧ (subcmd_anib ⟨false, true, true, true, true, true⟩).outcome.haltsNonzero = true)
    ∧ (subcmd_anib ⟨true, true, true, false, true, true⟩
        = ⟨Outcome.sysError 1, some "started", false, 0, 0⟩
      ∧ (subcmd_anib ⟨true, true, true, false, true, true⟩).outcome.haltsNonzero = true) :=
  ⟨(C7_setup_failures_abort ⟨false, true, true, true, true, true⟩).1 rfl,
   (C7_setup_failures_abort ⟨true, true, true, false, true, true⟩).2 rfl rfl rfl rfl⟩

/-- C3 (spec-modelled: `filter_existing_comparisons` and
`update_comparison_matrices` are `pyani.pyani_orm` code not under the
provided sources, modelled from spec sections 4.3 and 4.6; the stage
itself embeds lines 175-238 as written).  When the store already holds a
comparison for every enumerated ordered pair under the same program,
version and fragment size — the state a completed identical run leaves
behind — the filter leaves zero pending comparisons; the stage then
updates the run's summary matrices from the stored results and returns,
building no aligner job and starting no external process.  The matrices
equal `update_comparison_matrices` of the store and run inputs alone, a
pure function, so a second identical run yields the same matrices. -/
theorem C3_no_pending_updates_and_returns (store : Store) (genomes : List Nat)
    (version : String) (fragsize : Nat)
    (hall : ∀ pr ∈ permutations2 genomes,
      store.comparisons.any (fun kv =>
        kv.1 == ⟨pr.1, pr.2, "blastn", version, fragsize⟩) = true) :
    (anib_comparison_stage store genomes version fragsize).toRun = []
    ∧ (anib_comparison_stage store genomes version fragsize).outcome = Outcome.returned
    ∧ (anib_comparison_stage store genomes version fragsize).jobsBuilt = 0
    ∧ (anib_comparison_stage store genomes version fragsize).externalInvocations = 0
    ∧ (anib_comparison_stage store genomes version fragsize).matrices
        = some (update_comparison_matrices store genomes "blastn" version fragsize) := by
  have hempty : filter_existing_comparisons store "blastn" version fragsize
      (permutations2 genomes) = [] := by
    unfold filter_existing_comparisons
    rw [List.filter_eq_nil_iff]
    intro pr hpr
    simp [hall pr hpr]
  unfold anib_comparison_stage
  simp [hempty]

/-- Witness for C3: a store holding both ordered comparisons of a
two-genome run under the parameters of the rerun. -/
theorem C3_witness :
    (anib_comparison_stage
        ⟨[(⟨7, 9, "blastn", "2.9.0", 1020⟩, ⟨(9 : Rat) / 10, (4 : Rat) / 5⟩),
          (⟨9, 7, "blastn", "2.9.0", 1020⟩, ⟨(4 : Rat) / 5, (1 : Rat) / 2⟩)]⟩
        [7, 9] "2.9.0" 1020).toRun = []
    ∧ (anib_comparison_stage
        ⟨[(⟨7, 9, "blastn", "2.9.0", 1020⟩, ⟨(9 : Rat) / 10, (4 : Rat) / 5⟩),
          (⟨9, 7, "blastn", "2.9.0", 1020⟩, ⟨(4 : Rat) / 5, (1 : Rat) / 2⟩)]⟩
        [7, 9] "2.9.0" 1020).outcome = Outcome.returned
    ∧ (anib_comparison_stage
        ⟨[(⟨7, 9, "blastn", "2.9.0", 1020⟩, ⟨(9 : Rat) / 10, (4 : Rat) / 5⟩),
          (⟨9, 7, "blastn", "2.9.0", 1020⟩, ⟨(4 : Rat) / 5, (1 : Rat) / 2⟩)]⟩
        [7, 9] "2.9.0" 1020).jobsBuilt = 0
    ∧ (anib_comparison_stage
        ⟨[(⟨7, 9, "blastn", "2.9.0", 1020⟩, ⟨(9 : Rat) / 10, (4 : Rat) / 5⟩),
          (⟨9, 7, "blastn", "2.9.0", 1020⟩, ⟨(4 : Rat) / 5, (1 : Rat) / 2⟩)]⟩
        [7, 9] "2.9.0" 1020).externalInvocations = 0
    ∧ (anib_comparison_stage
        ⟨[(⟨7, 9, "blastn", "2.9.0", 1020⟩, ⟨(9 : Rat) / 10, (4 : Rat) / 5⟩),
          (⟨9, 7, "blastn", "2.9.0", 1020⟩, ⟨(4 : Rat) / 5, (1 : Rat) / 2⟩)]⟩
        [7, 9] "2.9.0" 1020).matrices
      = some (update_comparison_matrices
          ⟨[(⟨7, 9, "blastn", "2.9.0", 1020⟩, ⟨(9 : Rat) / 10, (4 : Rat) / 5⟩),
            (⟨9, 7, "blastn", "2.9.0", 1020⟩, ⟨(4 : Rat) / 5, (1 : Rat) / 2⟩)]⟩
          [7, 9] "blastn" "2.9.0" 1020) := by
  apply C3_no_pending_updates_and_returns
  decide

/-- C6: within one fragment_fasta_file call the fragment IDs are, in
emission order, exactly fragID of the counter values 1, 2, ..., total
(the counter restarts at 1 for the genome and increases by one per
fragment across all records in file order, so the IDs are ordered by
record order and then offset order); fragID is injective, so the IDs are
unique within the genome's fragment file; and the decimal counter is
zero-padded to a width of at least five, so every ID with counter at most
99999 has the fixed length 9 (`frag` plus five digits). -/
theorem C6_fragment_ids_unique_ordered (F : Nat) (records : List (List Char)) :
    ((outseqs F records).map Frag.id
      = (List.range' 1 ((records.map (fun r => (fragmentChunks F r).length)).sum)).map fragID)
    ∧ ((outseqs F records).map Frag.id).Nodup
    ∧ Function.Injective fragID
    ∧ (∀ n : Nat, (pad5 n).length = max 5 (decRepr n).length)
    ∧ (∀ n : Nat, n ≤ 99999 → (fragID n).length = 9) :=
  ⟨outseqs_ids F records, outseqs_ids_nodup F records, fragID_injective,
    pad5_length, fun _ h => fragID_length h⟩

/-- C8 as stated is refuted at a concrete input: the write at line 290
goes directly to the final output path with no temporary file, so a write
interrupted after the first of the genome's two fragments leaves a
partial (one-fragment) file at the final path. -/
theorem C8_counterexample :
    (fragment_fasta_file_effects 3 [['A','C','G','T','A']]
        (WriteOutcome.failAfter 1)).1.tmpPaths = []
    ∧ ((fragment_fasta_file_effects 3 [['A','C','G','T','A']]
        (WriteOutcome.failAfter 1)).1.finalFile).map List.length = some 1
    ∧ (outseqs 3 [['A','C','G','T','A']]).length = 2
    ∧ (fragment_fasta_file_effects 3 [['A','C','G','T','A']]
        (WriteOutcome.failAfter 1)).2.isOk = false := by
  decide

/-- C8 amended: fragment_fasta_file writes the fragments directly to the
final output path — no temporary path is used, so an interrupted write can
leave a partial file on disk — but it catches nothing, so on any write
failure the exception propagates and the (path, fragment-length map)
result is never returned: no caller can treat the file at the final path
as usable through the function's interface.  On a successful write the
final path holds exactly the full fragment list. -/
theorem C8_amended_no_usable_partial_file (fragsize : Nat)
    (records : List (List Char)) (w : WriteOutcome) :
    ((fragment_fasta_file_effects fragsize records w).1.tmpPaths = [])
    ∧ (w = WriteOutcome.ok →
        (fragment_fasta_file_effects fragsize records w).1.finalFile
            = some (outseqs fragsize records)
        ∧ (fragment_fasta_file_effects fragsize records w).2
            = Except.ok (outseqs fragsize records, sizedict fragsize records))
    ∧ (∀ k, w = WriteOutcome.failAfter k →
        (fragment_fasta_file_effects fragsize records w).2 = Except.error ()) := by
  cases w with
  | ok =>
    refine ⟨rfl, fun _ => ⟨rfl, rfl⟩, ?_⟩
    intro k hk
    exact nomatch hk
  | failAfter k =>
    refine ⟨rfl, ?_, fun _ _ => rfl⟩
    intro hk
    exact nomatch hk

/-- Witness for the amended C8: a failed write returns the propagated
error (and a successful one the full result). -/
theorem C8_witness :
    (fragment_fasta_file_effects 3 [['A','C','G','T','A']]
        (WriteOutcome.failAfter 1)).2 = Except.error ()
    ∧ (fragment_fasta_file_effects 3 [['A','C','G','T','A']]
        WriteOutcome.ok).1.finalFile = some (outseqs 3 [['A','C','G','T','A']]) :=
  ⟨(C8_amended_no_usable_partial_file 3 [['A','C','G','T','A']]
      (WriteOutcome.failAfter 1)).2.2 1 rfl,
   ((C8_amended_no_usable_partial_file 3 [['A','C','G','T','A']]
      WriteOutcome.ok).2.1 rfl).1⟩

/-- C9: with fragsize >= 1 the fragmenting loop terminates on every
record — after len(seq) iterations the offset n * fragsize has reached
len(seq) — and fragsize >= 1 is necessary: for fragsize <= 0 and a
nonempty record the offset never reaches the record length, so the guard
idx < len holds after every iteration and the loop never exits. -/
theorem C9_termination_iff_positive_fragsize (fragsize : Int) (len : Nat) :
    (1 ≤ fragsize → fragLoopTerminates fragsize len)
    ∧ (fragsize ≤ 0 → 0 < len → ¬ fragLoopTerminates fragsize len) := by
  constructor
  · intro h
    refine ⟨len, ?_⟩
    rw [fragLoopIdx_eq]
    have hlen : (0 : Int) ≤ (len : Int) := Int.natCast_nonneg len
    nlinarith
  · rintro h hlen ⟨n, hn⟩
    apply hn
    rw [fragLoopIdx_eq]
    have hn0 : (0 : Int) ≤ (n : Int) := Int.natCast_nonneg n
    have hprod : (n : Int) * fragsize ≤ 0 := mul_nonpos_of_nonneg_of_nonpos hn0 h
    have hlen' : (0 : Int) < (len : Int) := by exact_mod_cast hlen
    omega

/-- Witness for C9: termination at fragsize 2, divergence at fragsize 0,
on a record of length 5. -/
theorem C9_witness :
    fragLoopTerminates 2 5 ∧ ¬ fragLoopTerminates 0 5 :=
  ⟨(C9_termination_iff_positive_fragsize 2 5).1 (by norm_num),
   (C9_termination_iff_positive_fragsize 0 5).2 (by norm_num) (by norm_num)⟩

/-- C10: two write_run_heatmaps calls that differ only in the run_id
parameter retrieve the same Run row, the same label dictionary and the
same class dictionary, because all three database reads are keyed on
args.run_id (lines 112-116); the run_id parameter reaches only the output
file names and plot titles. -/
theorem C10_queries_ignore_run_id_parameter (session : PlotSession)
    (outfmts : List String) (args : PlotArgs) (r1 r2 : Nat) :
    (write_run_heatmaps r1 session outfmts args).results
        = (write_run_heatmaps r2 session outfmts args).results
    ∧ (write_run_heatmaps r1 session outfmts args).labels
        = (write_run_heatmaps r2 session outfmts args).labels
    ∧ (write_run_heatmaps r1 session outfmts args).classes
        = (write_run_heatmaps r2 session outfmts args).classes :=
  ⟨rfl, rfl, rfl⟩

end Pyani
